import Mathlib

/-!
Verification of the sync-merge core of `server.js` (flashcardabr).

The JavaScript source is shallowly embedded: `mergeLists`, the study-history
dedup filter, the profile override, and the `auth-register` / `sync-merge`
handlers become Lean functions over explicit data; the in-memory `Map` /
key-value store becomes an association list with JavaScript `Map` insertion
semantics (an update of an existing key keeps its position; a fresh key is
appended).  JavaScript `new Date(x).getTime()` is modelled by its outcome: a
finite millisecond value, or NaN for a truthy but unparsable `updatedAt`
(`x || 0` sends every falsy value to `new Date(0)`, i.e. time 0).
-/

namespace Flashcard

/-- Result of JS `new Date(x).getTime()`: a finite millisecond count, or NaN
(the value produced by an Invalid Date). -/
inductive JsTime where
  | num (t : Int)
  | nan
deriving DecidableEq

/-- The `updatedAt` field of an entity as it behaves under
`new Date(i.updatedAt || 0).getTime()` in `mergeLists`:
`none` stands for an absent or falsy field (JS `||` sends it to `0`),
`parseable t` for a truthy value whose `Date` parse yields time `t`, and
`unparsable` for a truthy value whose parse yields an Invalid Date. -/
inductive UpdatedAt where
  | parseable (t : Int)
  | unparsable
deriving DecidableEq

/-- `new Date(x || 0).getTime()` on the modelled `updatedAt` field. -/
def parseTime : Option UpdatedAt → JsTime
  | none => .num 0
  | some (.parseable t) => .num t
  | some .unparsable => .nan

/-- JS `>=` on numbers: any comparison involving NaN is false. -/
def jsGe : JsTime → JsTime → Bool
  | .num a, .num b => b ≤ a
  | _, _ => false

/-- A reconcilable entity (the shape shared by decks, cards, achievements):
`id`, the modelled `updatedAt`, the soft-delete flag (absent read as false),
and one opaque field standing for all caller-owned fields. -/
structure Entity where
  id : Nat
  updatedAt : Option UpdatedAt
  isDeleted : Bool
  payload : Nat
deriving DecidableEq

namespace JsMap

/-! ### JS `Map` as an association list

`map.set` on an existing key updates the entry in place (keeping its
position); on a fresh key it appends.  `map.get` returns the value at the
key.  `Array.from(map.values())` is `List.map Prod.snd`. -/

def get {κ α : Type} [DecidableEq κ] (m : List (κ × α)) (k : κ) : Option α :=
  (m.find? (fun p => p.1 = k)).map Prod.snd

def set {κ α : Type} [DecidableEq κ] (m : List (κ × α)) (k : κ) (v : α) :
    List (κ × α) :=
  if m.any (fun p => p.1 = k) then
    m.map (fun p => if p.1 = k then (k, v) else p)
  else m ++ [(k, v)]

def keys {κ α : Type} (m : List (κ × α)) : List κ := m.map Prod.fst

end JsMap

/-! ### The list reconciler `mergeLists` -/

/-- List of ids of a list of entities. -/
def ids (l : List Entity) : List Nat := l.map Entity.id

/-- Body of the client `forEach` loop in `mergeLists` (`server.js` lines
233–247): look the client entity's id up in the map; on a hit, OR the
soft-delete flags, compare the parsed times, keep the winner's fields with
the recomputed flag; on a miss, insert the client entity directly. -/
def mergeStep (m : List (Nat × Entity)) (i : Entity) : List (Nat × Entity) :=
  match JsMap.get m i.id with
  | some existing =>
      let isDel := i.isDeleted || existing.isDeleted
      let clientTime := parseTime i.updatedAt
      let cloudTime := parseTime existing.updatedAt
      let winner := if jsGe clientTime cloudTime then i else existing
      JsMap.set m i.id { winner with isDeleted := isDel }
  | none => JsMap.set m i.id i

/-- The seeding loop `(cloudList || []).forEach(i => map.set(i.id, i))`. -/
def seedFold (m : List (Nat × Entity)) (l : List Entity) : List (Nat × Entity) :=
  l.foldl (fun acc i => JsMap.set acc i.id i) m

/-- `mergeLists` from `server.js` (lines 230–249).  The two arguments are
`Option`s because the handler passes possibly-absent bundle fields and the
source guards both with `|| []`. -/
def mergeLists (cloudList clientList : Option (List Entity)) : List Entity :=
  let m := seedFold [] (cloudList.getD [])
  let m' := (clientList.getD []).foldl mergeStep m
  m'.map Prod.snd

/-- The value written on a client-loop hit: winner's fields with the ORed
soft-delete flag. -/
def combine (i existing : Entity) : Entity :=
  { (if jsGe (parseTime i.updatedAt) (parseTime existing.updatedAt)
     then i else existing) with
    isDeleted := i.isDeleted || existing.isDeleted }

/-- Well-formedness of the id-keyed map: every entry's value carries the
entry's key as its id, and keys are distinct. -/
def Wf (m : List (Nat × Entity)) : Prop :=
  (∀ p ∈ m, p.2.id = p.1) ∧ (JsMap.keys m).Nodup

/-- The map built by `mergeLists` (before taking values). -/
def mergeMap (a c : List Entity) : List (Nat × Entity) :=
  c.foldl mergeStep (seedFold [] a)

/-! ### The study-history log merger -/

/-- A study-history entry: the (cardId, date, rating) dedup triple plus one
opaque field for the caller-owned rest. -/
structure LogEntry where
  cardId : String
  date : String
  rating : Int
  payload : Nat
deriving DecidableEq

/-- The comparison used by the dedup filter:
`t.cardId === v.cardId && t.date === v.date && t.rating === v.rating`. -/
def sameLog (t v : LogEntry) : Bool :=
  t.cardId = v.cardId && t.date = v.date && t.rating = v.rating

/-- `filter((v,i,a) => a.findIndex(t => sameLog t v) === i)` over the list
`a`, carrying the running index `i`. -/
def dedupLogsGo (a : List LogEntry) (i : Nat) : List LogEntry → List LogEntry
  | [] => []
  | v :: rest =>
      if a.findIdx (fun t => sameLog t v) = i then
        v :: dedupLogsGo a (i + 1) rest
      else dedupLogsGo a (i + 1) rest

def dedupLogs (a : List LogEntry) : List LogEntry := dedupLogsGo a 0 a

/-- Study-history merge (`server.js` lines 254–255): concatenate the stored
log and the client log, then keep each entry only at the first index where
its triple occurs. -/
def mergeLogs (serverLog clientLog : Option (List LogEntry)) :
    List LogEntry :=
  dedupLogs ((serverLog.getD []) ++ (clientLog.getD []))

/-- The dedup triple of an entry. -/
def logKey (e : LogEntry) : String × String × Int := (e.cardId, e.date, e.rating)

/-- Modelled from the spec (§4.2): walk the concatenated sequence and drop
any entry whose (cardId, date, rating) triple has already been seen,
keeping the first occurrence. -/
def dedupFirstBy (seen : List (String × String × Int)) :
    List LogEntry → List LogEntry
  | [] => []
  | x :: xs =>
      if logKey x ∈ seen then dedupFirstBy seen xs
      else x :: dedupFirstBy (logKey x :: seen) xs

/-- Modelled from the spec (§4.2): server entries first, then client
entries, first occurrence of each triple kept. -/
def specMergeLogs (serverLog clientLog : List LogEntry) : List LogEntry :=
  dedupFirstBy [] (serverLog ++ clientLog)

/-! ### Bundles, user records, the store and the handlers -/

/-- A user profile; `theme` stands for the opaque profile content. -/
structure Profile where
  theme : String
deriving DecidableEq

/-- The five-field data bundle.  Every field is an `Option` because a stored
or client bundle may omit it; the source guards the lists with `|| []` and
the profile with `||`. -/
structure DataBundle where
  decks : Option (List Entity)
  cards : Option (List Entity)
  studyHistory : Option (List LogEntry)
  userProfile : Option Profile
  userAchievements : Option (List Entity)
deriving DecidableEq

/-- `{ decks: [], cards: [], studyHistory: [], userProfile: null,
userAchievements: [] }`. -/
def emptyBundle : DataBundle :=
  { decks := some [], cards := some [], studyHistory := some [],
    userProfile := none, userAchievements := some [] }

/-- `clientData.userProfile || cloudData.userProfile`: a present profile
object is truthy, absent or null is falsy. -/
def profileOr (client cloud : Option Profile) : Option Profile :=
  match client with
  | some p => some p
  | none => cloud

/-- Assembly of the merged bundle (`server.js` lines 251–258). -/
def mergeBundle (cloudData clientData : DataBundle) : DataBundle :=
  { decks := some (mergeLists cloudData.decks clientData.decks)
    cards := some (mergeLists cloudData.cards clientData.cards)
    studyHistory :=
      some (mergeLogs cloudData.studyHistory clientData.studyHistory)
    userProfile := profileOr clientData.userProfile cloudData.userProfile
    userAchievements :=
      some (mergeLists cloudData.userAchievements clientData.userAchievements) }

/-- A stored user record (`{ username, password, data }`). -/
structure UserRecord where
  username : String
  password : String
  data : Option DataBundle
deriving DecidableEq

/-- JS `toLowerCase()`, modelled character-wise. -/
def jsToLower (s : String) : String := ⟨s.data.map Char.toLower⟩

/-- `user:${username.toLowerCase()}` (`server.js` line 121). -/
def getUserKey (username : String) : String := "user:" ++ jsToLower username

/-- The key-value store (the in-memory `Map` backing of the entity store). -/
abbrev Store := List (String × UserRecord)

def getUser (store : Store) (username : String) : Option UserRecord :=
  JsMap.get store (getUserKey username)

def setUser (store : Store) (userData : UserRecord) : Store :=
  JsMap.set store (getUserKey userData.username) userData

inductive RegResp where
  | missingFields
  | usernameTaken
  | registered
deriving DecidableEq

/-- HTTP status attached to each register response. -/
def RegResp.status : RegResp → Nat
  | .missingFields => 400
  | .usernameTaken => 409
  | .registered => 201

/-- JS truthiness of an optional string: absent/undefined and the empty
string are falsy. -/
def truthyStr : Option String → Bool
  | none => false
  | some s => !s.isEmpty

/-- `auth-register` handler (`server.js` lines 190–204). -/
def handleRegister (store : Store) (username password : Option String) :
    Store × RegResp :=
  if (!truthyStr username || !truthyStr password) = true then
    (store, .missingFields)
  else
    match getUser store (username.getD "") with
    | some _ => (store, .usernameTaken)
    | none =>
        (setUser store
          { username := username.getD "", password := password.getD "",
            data := some emptyBundle },
         .registered)

inductive SyncThrow where
  | typeError
deriving DecidableEq

inductive SyncResp where
  | userNotFound
  | merged (d : DataBundle)
deriving DecidableEq

/-- `sync-merge` handler (`server.js` lines 219–262).  `clientData = none`
models a payload whose `data` field is absent or null: the handler then
throws a TypeError reading `clientData.decks` while assembling the merged
bundle, before any store write. -/
def handleSyncMerge (store : Store) (username : String)
    (clientData : Option DataBundle) :
    Except SyncThrow (Store × SyncResp) :=
  match getUser store username with
  | none => .ok (store, .userNotFound)
  | some user =>
      let cloudData := user.data.getD emptyBundle
      match clientData with
      | none => .error .typeError
      | some cd =>
          let merged := mergeBundle cloudData cd
          .ok (setUser store { user with data := some merged },
               .merged merged)

structure HttpResp where
  status : Nat
  body : Option DataBundle
deriving DecidableEq

/-- The `sync-merge` arm of the `/api/proxy` dispatcher (`server.js` lines
286–297): a handler response is returned with its status; a thrown
exception is caught at the boundary and converted to a 500 with the store
untouched. -/
def syncMergeRoute (store : Store) (username : String)
    (clientData : Option DataBundle) : Store × HttpResp :=
  match handleSyncMerge store username clientData with
  | .ok (st, .userNotFound) => (st, { status := 404, body := none })
  | .ok (st, .merged d) => (st, { status := 200, body := some d })
  | .error _ => (store, { status := 500, body := none })

/-- Id-uniqueness of the three reconcilable lists of a bundle (the spec's
standing assumption on reconciler inputs). -/
def BundleIdUnique (b : DataBundle) : Prop :=
  (ids (b.decks.getD [])).Nodup ∧ (ids (b.cards.getD [])).Nodup ∧
    (ids (b.userAchievements.getD [])).Nodup

instance {ε α : Type} [DecidableEq ε] [DecidableEq α] :
    DecidableEq (Except ε α) := fun x y =>
  match x, y with
  | .error a, .error b =>
      if h : a = b then .isTrue (congrArg Except.error h)
      else .isFalse (fun hh => h (Except.error.inj hh))
  | .ok a, .ok b =>
      if h : a = b then .isTrue (congrArg Except.ok h)
      else .isFalse (fun hh => h (Except.ok.inj hh))
  | .error _, .ok _ => .isFalse (fun hh => Except.noConfusion hh)
  | .ok _, .error _ => .isFalse (fun hh => Except.noConfusion hh)

/-! ### Sample data for concrete witnesses -/

def sampleServerDel : Entity :=
  { id := 1, updatedAt := some (.parseable 20), isDeleted := true,
    payload := 100 }

def sampleClientOld : Entity :=
  { id := 1, updatedAt := some (.parseable 10), isDeleted := false,
    payload := 200 }

def sampleClientNew2 : Entity :=
  { id := 2, updatedAt := none, isDeleted := true, payload := 300 }

def sampleServerTie : Entity :=
  { id := 1, updatedAt := some (.parseable 10), isDeleted := false,
    payload := 100 }

def sampleClientTie : Entity :=
  { id := 1, updatedAt := some (.parseable 10), isDeleted := false,
    payload := 200 }

def sampleServerNan : Entity :=
  { id := 1, updatedAt := some .unparsable, isDeleted := false,
    payload := 100 }

def sampleClientNum : Entity :=
  { id := 1, updatedAt := some (.parseable 5), isDeleted := false,
    payload := 200 }

def recBob : UserRecord :=
  { username := "bob", password := "pw", data := some emptyBundle }

def storeBob : Store := [(getUserKey "bob", recBob)]

def mergedBob : DataBundle := mergeBundle emptyBundle emptyBundle

def storeBob1 : Store := setUser storeBob { recBob with data := some mergedBob }

def recAlice : UserRecord :=
  { username := "Alice", password := "pw", data := some emptyBundle }

def storeAlice : Store := [(getUserKey "Alice", recAlice)]

namespace JsMap

theorem get_nil {κ α : Type} [DecidableEq κ] (k : κ) :
    get ([] : List (κ × α)) k = none := rfl

theorem get_cons {κ α : Type} [DecidableEq κ] (p : κ × α) (m : List (κ × α))
    (k : κ) : get (p :: m) k = if p.1 = k then some p.2 else get m k := by
  simp only [get, List.find?_cons]
  by_cases h : p.1 = k <;> simp [h]

theorem get_isSome_of_any {κ α : Type} [DecidableEq κ] (m : List (κ × α))
    (k : κ) (h : m.any (fun p => p.1 = k) = true) : (get m k).isSome := by
  induction m with
  | nil => simp at h
  | cons p rest ih =>
      rw [get_cons]
      by_cases hp : p.1 = k
      · simp [hp]
      · simp only [List.any_cons, decide_eq_true_eq, hp, Bool.false_or] at h
        simpa [hp] using ih h

theorem get_eq_none_of_not_any {κ α : Type} [DecidableEq κ] (m : List (κ × α))
    (k : κ) (h : m.any (fun p => p.1 = k) = false) : get m k = none := by
  induction m with
  | nil => rfl
  | cons p rest ih =>
      rw [List.any_cons, Bool.or_eq_false_iff] at h
      rw [get_cons, if_neg (of_decide_eq_false h.1)]
      exact ih h.2

theorem get_map_update_same {κ α : Type} [DecidableEq κ] (m : List (κ × α))
    (k : κ) (v : α) :
    get (m.map (fun p => if p.1 = k then (k, v) else p)) k
      = (get m k).map (fun _ => v) := by
  induction m with
  | nil => rfl
  | cons p rest ih =>
      by_cases hp : p.1 = k
      · simp only [List.map_cons, hp, if_pos rfl, get_cons]
        simp [get_cons, hp]
      · simp only [List.map_cons, if_neg hp, get_cons, if_neg hp]
        exact ih

theorem get_map_update_ne {κ α : Type} [DecidableEq κ] (m : List (κ × α))
    (k k' : κ) (v : α) (hne : k' ≠ k) :
    get (m.map (fun p => if p.1 = k then (k, v) else p)) k' = get m k' := by
  induction m with
  | nil => rfl
  | cons p rest ih =>
      by_cases hp : p.1 = k
      · have hk : ¬ (k = k') := fun h => hne h.symm
        simp only [List.map_cons, if_pos hp, get_cons, if_neg hk]
        rw [ih]
        have hp' : ¬ (p.1 = k') := by rw [hp]; exact hk
        rw [if_neg hp']
      · simp only [List.map_cons, if_neg hp, get_cons]
        by_cases hpk : p.1 = k'
        · simp [hpk]
        · simp only [if_neg hpk]
          exact ih

theorem get_append {κ α : Type} [DecidableEq κ] (m₁ m₂ : List (κ × α)) (k : κ) :
    get (m₁ ++ m₂) k = match get m₁ k with
      | some v => some v
      | none => get m₂ k := by
  induction m₁ with
  | nil => simp [get]
  | cons p rest ih =>
      rw [List.cons_append, get_cons, get_cons]
      by_cases hp : p.1 = k
      · simp [hp]
      · simp only [if_neg hp]
        exact ih

theorem get_set_same {κ α : Type} [DecidableEq κ] (m : List (κ × α)) (k : κ)
    (v : α) : get (set m k v) k = some v := by
  unfold set
  by_cases h : m.any (fun p => p.1 = k) = true
  · rw [if_pos h, get_map_update_same]
    have := get_isSome_of_any m k h
    cases hg : get m k with
    | none => rw [hg] at this; simp at this
    | some w => simp
  · rw [if_neg h, get_append]
    rw [get_eq_none_of_not_any m k (by rwa [Bool.not_eq_true] at h)]
    simp [get_cons]

theorem get_set_ne {κ α : Type} [DecidableEq κ] (m : List (κ × α)) (k k' : κ)
    (v : α) (hne : k' ≠ k) : get (set m k v) k' = get m k' := by
  unfold set
  by_cases h : m.any (fun p => p.1 = k) = true
  · rw [if_pos h, get_map_update_ne m k k' v hne]
  · rw [if_neg h, get_append]
    cases hg : get m k' with
    | none =>
        simp only [get_cons, get_nil]
        have : ¬ ((k, v).1 = k') := fun hh => hne hh.symm
        simp [this]
    | some w => simp

theorem keys_set {κ α : Type} [DecidableEq κ] (m : List (κ × α)) (k : κ)
    (v : α) (x : κ) : x ∈ keys (set m k v) ↔ x ∈ keys m ∨ x = k := by
  unfold set keys
  by_cases h : m.any (fun p => p.1 = k) = true
  · rw [if_pos h]
    simp only [List.any_eq_true, decide_eq_true_eq] at h
    obtain ⟨p₀, hp₀, hk₀⟩ := h
    constructor
    · intro hx
      simp only [List.map_map, List.mem_map, Function.comp] at hx
      obtain ⟨p, hp, hpx⟩ := hx
      by_cases hpk : p.1 = k
      · right; simp only [if_pos hpk] at hpx; exact hpx.symm
      · left; simp only [if_neg hpk] at hpx
        exact List.mem_map.2 ⟨p, hp, hpx⟩
    · intro hx
      rcases hx with hx | hx
      · obtain ⟨p, hp, hpx⟩ := List.mem_map.1 hx
        simp only [List.map_map, List.mem_map, Function.comp]
        refine ⟨p, hp, ?_⟩
        by_cases hpk : p.1 = k
        · simp only [if_pos hpk]; rw [← hpx, hpk]
        · simp only [if_neg hpk]; exact hpx
      · subst hx
        simp only [List.map_map, List.mem_map, Function.comp]
        exact ⟨p₀, hp₀, by simp [hk₀]⟩
  · rw [if_neg h]
    simp [List.mem_map, or_comm]

theorem keys_set_nodup {κ α : Type} [DecidableEq κ] (m : List (κ × α)) (k : κ)
    (v : α) (h : (keys m).Nodup) : (keys (set m k v)).Nodup := by
  unfold set keys
  by_cases hany : m.any (fun p => p.1 = k) = true
  · rw [if_pos hany]
    unfold keys at h
    have : (m.map (fun p => if p.1 = k then (k, v) else p)).map Prod.fst
        = m.map Prod.fst := by
      rw [List.map_map]
      apply List.map_congr_left
      intro p _
      by_cases hpk : p.1 = k
      · simp [Function.comp, hpk]
      · simp [Function.comp, hpk]
    rw [this]; exact h
  · rw [if_neg hany, List.map_append]
    simp only [List.map_cons, List.map_nil]
    rw [List.nodup_append]
    refine ⟨h, List.nodup_singleton _, ?_⟩
    intro x hx
    simp only [List.mem_singleton]
    intro hxk
    subst hxk
    obtain ⟨p, hp, hpx⟩ := List.mem_map.1 hx
    simp only [List.any_eq_true, decide_eq_true_eq] at hany
    exact hany ⟨p, hp, hpx⟩

theorem set_fresh {κ α : Type} [DecidableEq κ] (m : List (κ × α)) (k : κ)
    (v : α) (h : ¬ k ∈ keys m) : set m k v = m ++ [(k, v)] := by
  unfold set
  rw [if_neg ?_]
  intro hany
  simp only [List.any_eq_true, decide_eq_true_eq] at hany
  obtain ⟨p, hp, hpk⟩ := hany
  exact h (List.mem_map.2 ⟨p, hp, hpk⟩)

theorem get_mem {κ α : Type} [DecidableEq κ] (m : List (κ × α)) (k : κ)
    (v : α) (h : get m k = some v) : (k, v) ∈ m := by
  induction m with
  | nil => simp [get] at h
  | cons p rest ih =>
      rw [get_cons] at h
      by_cases hp : p.1 = k
      · rw [if_pos hp, Option.some.injEq] at h
        obtain ⟨pk, pv⟩ := p
        dsimp at hp h
        subst hp
        subst h
        exact List.mem_cons_self _ _
      · simp only [if_neg hp] at h
        exact List.mem_cons_of_mem _ (ih h)

theorem get_of_mem_nodup {κ α : Type} [DecidableEq κ] (m : List (κ × α))
    (k : κ) (v : α) (hnd : (keys m).Nodup) (h : (k, v) ∈ m) :
    get m k = some v := by
  induction m with
  | nil => simp at h
  | cons p rest ih =>
      unfold keys at hnd
      simp only [List.map_cons, List.nodup_cons] at hnd
      rw [get_cons]
      rcases List.mem_cons.1 h with h | h
      · subst h; simp
      · by_cases hp : p.1 = k
        · exfalso
          apply hnd.1
          rw [hp]
          exact List.mem_map.2 ⟨(k, v), h, rfl⟩
        · rw [if_neg hp]
          exact ih hnd.2 h

theorem mem_unique_of_keys_nodup {κ α : Type} (m : List (κ × α))
    (p q : κ × α) (hnd : (keys m).Nodup) (hp : p ∈ m) (hq : q ∈ m)
    (hk : p.1 = q.1) : p = q := by
  induction m with
  | nil => simp at hp
  | cons r rest ih =>
      unfold keys at hnd
      simp only [List.map_cons, List.nodup_cons] at hnd
      rcases List.mem_cons.1 hp with hp | hp <;>
        rcases List.mem_cons.1 hq with hq | hq
      · rw [hp, hq]
      · exfalso
        apply hnd.1
        rw [← hp, hk]
        exact List.mem_map.2 ⟨q, hq, rfl⟩
      · exfalso
        apply hnd.1
        rw [← hq, ← hk]
        exact List.mem_map.2 ⟨p, hp, rfl⟩
      · exact ih hnd.2 hp hq

theorem set_self {κ α : Type} [DecidableEq κ] (m : List (κ × α)) (k : κ)
    (v : α) (hnd : (keys m).Nodup) (h : (k, v) ∈ m) : set m k v = m := by
  unfold set
  rw [if_pos ?_]
  swap
  · simp only [List.any_eq_true, decide_eq_true_eq]
    exact ⟨(k, v), h, rfl⟩
  · conv_rhs => rw [← List.map_id m]
    apply List.map_congr_left
    intro p hp
    by_cases hpk : p.1 = k
    · rw [if_pos hpk, id_eq]
      exact (mem_unique_of_keys_nodup m p (k, v) hnd hp h hpk).symm
    · rw [if_neg hpk, id_eq]

theorem mem_set {κ α : Type} [DecidableEq κ] (m : List (κ × α)) (k : κ)
    (v : α) (q : κ × α) (h : q ∈ set m k v) : q = (k, v) ∨ q ∈ m := by
  unfold set at h
  by_cases hany : m.any (fun p => p.1 = k) = true
  · rw [if_pos hany] at h
    obtain ⟨p, hp, hpq⟩ := List.mem_map.1 h
    by_cases hpk : p.1 = k
    · left; rw [← hpq, if_pos hpk]
    · right; rw [← hpq, if_neg hpk]; exact hp
  · rw [if_neg hany] at h
    rcases List.mem_append.1 h with h | h
    · right; exact h
    · left; simpa using h

end JsMap

theorem mergeStep_of_get_some (m : List (Nat × Entity)) (i existing : Entity)
    (h : JsMap.get m i.id = some existing) :
    mergeStep m i = JsMap.set m i.id (combine i existing) := by
  unfold mergeStep combine
  rw [h]

theorem mergeStep_of_get_none (m : List (Nat × Entity)) (i : Entity)
    (h : JsMap.get m i.id = none) :
    mergeStep m i = JsMap.set m i.id i := by
  unfold mergeStep
  rw [h]

theorem wf_nil : Wf [] := ⟨by intro p hp; simp at hp, List.nodup_nil⟩

theorem wf_set (m : List (Nat × Entity)) (k : Nat) (v : Entity)
    (hwf : Wf m) (hv : v.id = k) : Wf (JsMap.set m k v) := by
  constructor
  · intro p hp
    rcases JsMap.mem_set m k v p hp with h | h
    · rw [h]; exact hv
    · exact hwf.1 p h
  · exact JsMap.keys_set_nodup m k v hwf.2

theorem wf_mergeStep (m : List (Nat × Entity)) (i : Entity) (hwf : Wf m) :
    Wf (mergeStep m i) := by
  cases hg : JsMap.get m i.id with
  | some existing =>
      rw [mergeStep_of_get_some m i existing hg]
      apply wf_set m i.id _ hwf
      have hex : existing.id = i.id :=
        hwf.1 (i.id, existing) (JsMap.get_mem m i.id existing hg)
      unfold combine
      by_cases hc : jsGe (parseTime i.updatedAt) (parseTime existing.updatedAt)
      · rw [if_pos hc]
      · rw [if_neg hc]; exact hex
  | none =>
      rw [mergeStep_of_get_none m i hg]
      exact wf_set m i.id i hwf rfl

theorem wf_mergeFold (c : List Entity) (m : List (Nat × Entity)) (hwf : Wf m) :
    Wf (c.foldl mergeStep m) := by
  induction c generalizing m with
  | nil => exact hwf
  | cons x xs ih => exact ih (mergeStep m x) (wf_mergeStep m x hwf)

theorem wf_seedFold (l : List Entity) (m : List (Nat × Entity)) (hwf : Wf m) :
    Wf (seedFold m l) := by
  induction l generalizing m with
  | nil => exact hwf
  | cons x xs ih => exact ih _ (wf_set m x.id x hwf rfl)

theorem keys_seedFold (l : List Entity) (m : List (Nat × Entity)) (x : Nat) :
    x ∈ JsMap.keys (seedFold m l) ↔ x ∈ JsMap.keys m ∨ x ∈ ids l := by
  induction l generalizing m with
  | nil => simp [seedFold, ids]
  | cons e es ih =>
      show x ∈ JsMap.keys (seedFold (JsMap.set m e.id e) es) ↔ _
      rw [ih]
      rw [JsMap.keys_set]
      unfold ids
      simp only [List.map_cons, List.mem_cons]
      tauto

theorem keys_mergeStep (m : List (Nat × Entity)) (i : Entity) (x : Nat) :
    x ∈ JsMap.keys (mergeStep m i) ↔ x ∈ JsMap.keys m ∨ x = i.id := by
  cases hg : JsMap.get m i.id with
  | some existing =>
      rw [mergeStep_of_get_some m i existing hg, JsMap.keys_set]
  | none =>
      rw [mergeStep_of_get_none m i hg, JsMap.keys_set]

theorem keys_mergeFold (c : List Entity) (m : List (Nat × Entity)) (x : Nat) :
    x ∈ JsMap.keys (c.foldl mergeStep m) ↔ x ∈ JsMap.keys m ∨ x ∈ ids c := by
  induction c generalizing m with
  | nil => simp [ids]
  | cons e es ih =>
      show x ∈ JsMap.keys (es.foldl mergeStep (mergeStep m e)) ↔ _
      rw [ih, keys_mergeStep]
      unfold ids
      simp only [List.map_cons, List.mem_cons]
      tauto

theorem get_mergeStep_ne (m : List (Nat × Entity)) (i : Entity) (x : Nat)
    (hne : x ≠ i.id) : JsMap.get (mergeStep m i) x = JsMap.get m x := by
  cases hg : JsMap.get m i.id with
  | some existing =>
      rw [mergeStep_of_get_some m i existing hg, JsMap.get_set_ne _ _ _ _ hne]
  | none =>
      rw [mergeStep_of_get_none m i hg, JsMap.get_set_ne _ _ _ _ hne]

theorem get_mergeFold_notin (c : List Entity) (m : List (Nat × Entity))
    (x : Nat) (hx : ∀ i ∈ c, i.id ≠ x) :
    JsMap.get (c.foldl mergeStep m) x = JsMap.get m x := by
  induction c generalizing m with
  | nil => rfl
  | cons e es ih =>
      show JsMap.get (es.foldl mergeStep (mergeStep m e)) x = _
      rw [ih _ (fun i hi => hx i (List.mem_cons_of_mem _ hi))]
      exact get_mergeStep_ne m e x (fun h => hx e (List.mem_cons_self _ _) h.symm)

/-- The value sitting at `ce.id` after the client loop, for a client list
with distinct ids: the seeded value merged once with `ce`, or `ce` itself. -/
theorem get_mergeFold (c : List Entity) (hc : (ids c).Nodup) (ce : Entity)
    (hce : ce ∈ c) (m : List (Nat × Entity)) :
    JsMap.get (c.foldl mergeStep m) ce.id =
      some (match JsMap.get m ce.id with
            | some se => combine ce se
            | none => ce) := by
  induction c generalizing m with
  | nil => simp at hce
  | cons x xs ih =>
      unfold ids at hc
      simp only [List.map_cons, List.nodup_cons] at hc
      rcases List.mem_cons.1 hce with hh | hh
      · subst hh
        show JsMap.get (xs.foldl mergeStep (mergeStep m ce)) ce.id = _
        rw [get_mergeFold_notin xs (mergeStep m ce) ce.id ?_]
        · cases hg : JsMap.get m ce.id with
          | some se =>
              rw [mergeStep_of_get_some m ce se hg, JsMap.get_set_same]
          | none =>
              rw [mergeStep_of_get_none m ce hg, JsMap.get_set_same]
        · intro i hi hid
          exact hc.1 (hid ▸ List.mem_map.2 ⟨i, hi, rfl⟩)
      · show JsMap.get (xs.foldl mergeStep (mergeStep m x)) ce.id = _
        have hne : ce.id ≠ x.id := by
          intro h
          exact hc.1 (h ▸ List.mem_map.2 ⟨ce, hh, rfl⟩)
        rw [ih hc.2 hh (mergeStep m x), get_mergeStep_ne m x ce.id hne]

theorem get_seed_map_pair (l : List Entity) (k : Nat) :
    JsMap.get (l.map (fun e => (e.id, e))) k
      = l.find? (fun e => e.id = k) := by
  induction l with
  | nil => rfl
  | cons x xs ih =>
      rw [List.map_cons, JsMap.get_cons, List.find?_cons]
      by_cases hx : x.id = k
      · simp [hx]
      · simp only [decide_eq_false hx, cond_false, if_neg hx]
        exact ih

theorem seedFold_fresh (l : List Entity) (m : List (Nat × Entity))
    (hl : (ids l).Nodup) (hfresh : ∀ i ∈ l, ¬ i.id ∈ JsMap.keys m) :
    seedFold m l = m ++ l.map (fun e => (e.id, e)) := by
  induction l generalizing m with
  | nil => simp [seedFold]
  | cons x xs ih =>
      unfold ids at hl
      simp only [List.map_cons, List.nodup_cons] at hl
      show seedFold (JsMap.set m x.id x) xs = _
      rw [JsMap.set_fresh m x.id x (hfresh x (List.mem_cons_self _ _))]
      rw [ih _ hl.2 ?_]
      · simp
      · intro i hi
        unfold JsMap.keys
        rw [List.map_append]
        simp only [List.map_cons, List.map_nil, List.mem_append,
          List.mem_singleton]
        rintro (h | h)
        · exact hfresh i (List.mem_cons_of_mem _ hi) h
        · exact hl.1 (h ▸ List.mem_map.2 ⟨i, hi, rfl⟩)

theorem get_seedFold_nil (a : List Entity) (ha : (ids a).Nodup) (k : Nat) :
    JsMap.get (seedFold [] a) k = a.find? (fun e => e.id = k) := by
  rw [seedFold_fresh a [] ha (by intro i _; simp [JsMap.keys])]
  rw [List.nil_append]
  exact get_seed_map_pair a k

theorem find?_of_mem_nodup (a : List Entity) (ha : (ids a).Nodup)
    (se : Entity) (hse : se ∈ a) :
    a.find? (fun e => e.id = se.id) = some se := by
  induction a with
  | nil => simp at hse
  | cons x xs ih =>
      unfold ids at ha
      simp only [List.map_cons, List.nodup_cons] at ha
      rcases List.mem_cons.1 hse with hh | hh
      · subst hh
        simp [List.find?_cons]
      · rw [List.find?_cons]
        have hne : x.id ≠ se.id := by
          intro h
          exact ha.1 (h ▸ List.mem_map.2 ⟨se, hh, rfl⟩)
        simp only [decide_eq_false hne, cond_false]
        exact ih ha.2 hh

theorem mergeLists_eq_map (a c : List Entity) :
    mergeLists (some a) (some c) = (mergeMap a c).map Prod.snd := rfl

theorem wf_mergeMap (a c : List Entity) : Wf (mergeMap a c) :=
  wf_mergeFold c _ (wf_seedFold a [] wf_nil)

/-- Master per-id description of `mergeLists` on id-unique inputs: at an id
shared by both sides the stored value is `combine ce se`; at a client-only
id it is the client entity unchanged. -/
theorem get_mergeMap (a c : List Entity) (ha : (ids a).Nodup)
    (hc : (ids c).Nodup) (ce : Entity) (hce : ce ∈ c) :
    JsMap.get (mergeMap a c) ce.id =
      some (match a.find? (fun e => e.id = ce.id) with
            | some se => combine ce se
            | none => ce) := by
  unfold mergeMap
  rw [get_mergeFold c hc ce hce, get_seedFold_nil a ha]

theorem get_of_out_mem (m : List (Nat × Entity)) (hwf : Wf m) (e : Entity)
    (he : e ∈ m.map Prod.snd) : JsMap.get m e.id = some e := by
  obtain ⟨p, hp, hpe⟩ := List.mem_map.1 he
  have h1 : p.1 = e.id := by rw [← hpe]; exact (hwf.1 p hp).symm
  apply JsMap.get_of_mem_nodup m e.id e hwf.2
  have : p = (e.id, e) := by
    obtain ⟨pk, pv⟩ := p
    dsimp at h1 hpe
    rw [h1, hpe]
  rw [← this]
  exact hp

theorem out_mem_of_get (m : List (Nat × Entity)) (e : Entity) (x : Nat)
    (h : JsMap.get m x = some e) : e ∈ m.map Prod.snd :=
  List.mem_map.2 ⟨(x, e), JsMap.get_mem m x e h, rfl⟩

/-- Any output entity of `mergeLists` carrying an id shared by both
(id-unique) inputs is exactly `combine ce se`. -/
theorem mergeLists_lookup_both (s c : List Entity) (hs : (ids s).Nodup)
    (hc : (ids c).Nodup) (se ce : Entity) (hse : se ∈ s) (hce : ce ∈ c)
    (hid : se.id = ce.id) (e : Entity)
    (he : e ∈ mergeLists (some s) (some c)) (heid : e.id = ce.id) :
    e = combine ce se := by
  rw [mergeLists_eq_map] at he
  have hget : JsMap.get (mergeMap s c) e.id = some e :=
    get_of_out_mem _ (wf_mergeMap s c) e he
  rw [heid] at hget
  have hfind : s.find? (fun x => x.id = ce.id) = some se := by
    rw [← hid]
    exact find?_of_mem_nodup s hs se hse
  rw [get_mergeMap s c hs hc ce hce, hfind] at hget
  exact (Option.some.inj hget).symm

theorem ids_out_eq_keys (m : List (Nat × Entity)) (hwf : Wf m) :
    ids (m.map Prod.snd) = JsMap.keys m := by
  unfold ids JsMap.keys
  rw [List.map_map]
  apply List.map_congr_left
  intro p hp
  exact hwf.1 p hp

theorem ids_mergeLists_mem (a c : List Entity) (x : Nat) :
    x ∈ ids (mergeLists (some a) (some c)) ↔ x ∈ ids a ∨ x ∈ ids c := by
  rw [mergeLists_eq_map, ids_out_eq_keys _ (wf_mergeMap a c)]
  unfold mergeMap
  rw [keys_mergeFold, keys_seedFold]
  simp [JsMap.keys]

theorem ids_mergeLists_nodup (a c : List Entity) :
    (ids (mergeLists (some a) (some c))).Nodup := by
  rw [mergeLists_eq_map, ids_out_eq_keys _ (wf_mergeMap a c)]
  exact (wf_mergeMap a c).2

/-! ### Idempotence of the list reconciler -/

theorem jsGe_self_of_true (x y : JsTime) (h : jsGe x y = true) :
    jsGe x x = true := by
  cases x with
  | num a => simp [jsGe]
  | nan => cases y <;> simp [jsGe] at h

theorem combine_self (ce : Entity) : combine ce ce = ce := by
  obtain ⟨ci, cu, cd, cp⟩ := ce
  simp [combine]

theorem combine_combine (ce se : Entity) :
    combine ce (combine ce se) = combine ce se := by
  obtain ⟨ci, cu, cd, cp⟩ := ce
  obtain ⟨si, su, sd, sp⟩ := se
  by_cases h : jsGe (parseTime cu) (parseTime su) = true
  · have h2 := jsGe_self_of_true _ _ h
    simp [combine, h, h2, Bool.or_self_left]
  · simp [combine, h, Bool.or_self_left]

theorem mergeFold_identity (c : List Entity) (m : List (Nat × Entity))
    (hwf : Wf m)
    (hfix : ∀ ce ∈ c, ∃ v, JsMap.get m ce.id = some v ∧ combine ce v = v) :
    c.foldl mergeStep m = m := by
  induction c with
  | nil => rfl
  | cons x xs ih =>
      obtain ⟨v, hget, hcomb⟩ := hfix x (List.mem_cons_self _ _)
      have hstep : mergeStep m x = m := by
        rw [mergeStep_of_get_some m x v hget, hcomb]
        exact JsMap.set_self m x.id v hwf.2 (JsMap.get_mem m x.id v hget)
      show xs.foldl mergeStep (mergeStep m x) = m
      rw [hstep]
      exact ih (fun ce hce => hfix ce (List.mem_cons_of_mem _ hce))

theorem mergeMap_fix (a c : List Entity) (ha : (ids a).Nodup)
    (hc : (ids c).Nodup) (ce : Entity) (hce : ce ∈ c) :
    ∃ v, JsMap.get (mergeMap a c) ce.id = some v ∧ combine ce v = v := by
  rw [get_mergeMap a c ha hc ce hce]
  cases a.find? (fun e => e.id = ce.id) with
  | some se => exact ⟨combine ce se, rfl, combine_combine ce se⟩
  | none => exact ⟨ce, rfl, combine_self ce⟩

theorem seed_of_out (m : List (Nat × Entity)) (hwf : Wf m) :
    seedFold [] (m.map Prod.snd) = m := by
  rw [seedFold_fresh _ [] ?_ ?_]
  · rw [List.nil_append, List.map_map]
    conv_rhs => rw [← List.map_id m]
    apply List.map_congr_left
    intro p hp
    have hk := hwf.1 p hp
    obtain ⟨pk, pv⟩ := p
    dsimp at hk ⊢
    rw [hk]
  · rw [ids_out_eq_keys m hwf]
    exact hwf.2
  · intro i _
    simp [JsMap.keys]

theorem mergeLists_idem (a c : List Entity) (ha : (ids a).Nodup)
    (hc : (ids c).Nodup) :
    mergeLists (some (mergeLists (some a) (some c))) (some c)
      = mergeLists (some a) (some c) := by
  have hwf := wf_mergeMap a c
  show ((c.foldl mergeStep
      (seedFold [] ((mergeMap a c).map Prod.snd))).map Prod.snd) = _
  rw [seed_of_out _ hwf,
    mergeFold_identity c _ hwf (fun ce hce => mergeMap_fix a c ha hc ce hce)]
  exact (mergeLists_eq_map a c).symm

theorem sameLog_iff (t v : LogEntry) :
    sameLog t v = true ↔ logKey t = logKey v := by
  unfold sameLog logKey
  simp [Prod.ext_iff, and_assoc]

theorem sameLog_refl (v : LogEntry) : sameLog v v = true := by
  simp [sameLog]

theorem findIdx_append_of_none {α : Type} (p : α → Bool) (l₁ l₂ : List α)
    (h : ∀ t ∈ l₁, p t = false) :
    (l₁ ++ l₂).findIdx p = l₁.length + l₂.findIdx p := by
  induction l₁ with
  | nil => simp
  | cons x xs ih =>
      rw [List.cons_append, List.findIdx_cons, h x (List.mem_cons_self _ _)]
      simp only [cond_false, List.length_cons]
      rw [ih (fun t ht => h t (List.mem_cons_of_mem _ ht))]
      omega

theorem findIdx_append_lt {α : Type} (p : α → Bool) (l₁ l₂ : List α) (t : α)
    (ht : t ∈ l₁) (hp : p t = true) :
    (l₁ ++ l₂).findIdx p < l₁.length := by
  induction l₁ with
  | nil => simp at ht
  | cons x xs ih =>
      rw [List.cons_append, List.findIdx_cons]
      by_cases hx : p x = true
      · simp [hx]
      · rw [Bool.not_eq_true] at hx
        rw [hx]
        simp only [cond_false, List.length_cons]
        rcases List.mem_cons.1 ht with hh | hh
        · subst hh
          rw [hp] at hx
          cases hx
        · have := ih hh
          omega

theorem key_mem_iff (pre : List LogEntry) (x : LogEntry) :
    logKey x ∈ pre.map logKey ↔ ∃ t ∈ pre, sameLog t x = true := by
  rw [List.mem_map]
  constructor
  · rintro ⟨t, ht, hk⟩
    exact ⟨t, ht, (sameLog_iff t x).2 hk⟩
  · rintro ⟨t, ht, hs⟩
    exact ⟨t, ht, (sameLog_iff t x).1 hs⟩

theorem dedupFirstBy_congr (s₁ s₂ : List (String × String × Int))
    (h : ∀ k, k ∈ s₁ ↔ k ∈ s₂) (l : List LogEntry) :
    dedupFirstBy s₁ l = dedupFirstBy s₂ l := by
  induction l generalizing s₁ s₂ with
  | nil => rfl
  | cons x xs ih =>
      simp only [dedupFirstBy]
      by_cases hx : logKey x ∈ s₁
      · rw [if_pos hx, if_pos ((h _).1 hx)]
        exact ih s₁ s₂ h
      · rw [if_neg hx, if_neg (fun hh => hx ((h _).2 hh))]
        rw [ih (logKey x :: s₁) (logKey x :: s₂) ?_]
        intro k
        simp only [List.mem_cons, h k]

theorem dedupLogsGo_spec (rest pre : List LogEntry) :
    dedupLogsGo (pre ++ rest) pre.length rest
      = dedupFirstBy (pre.map logKey) rest := by
  induction rest generalizing pre with
  | nil => rfl
  | cons x xs ih =>
      simp only [dedupLogsGo, dedupFirstBy]
      have hrw : pre ++ x :: xs = (pre ++ [x]) ++ xs := by simp
      have hlen : pre.length + 1 = (pre ++ [x]).length := by simp
      by_cases hseen : logKey x ∈ pre.map logKey
      · obtain ⟨t, ht, hs⟩ := (key_mem_iff pre x).1 hseen
        have hlt : (pre ++ x :: xs).findIdx (fun t => sameLog t x)
            < pre.length := findIdx_append_lt _ pre (x :: xs) t ht hs
        rw [if_neg (by omega), if_pos hseen, hrw, hlen, ih (pre ++ [x])]
        apply dedupFirstBy_congr
        intro k
        simp only [List.map_append, List.map_cons, List.map_nil,
          List.mem_append, List.mem_singleton]
        constructor
        · rintro (hk | hk)
          · exact hk
          · rw [hk]
            exact hseen
        · exact fun hk => Or.inl hk
      · have hnone : ∀ t ∈ pre, (fun t => sameLog t x) t = false := by
          intro t ht
          by_contra hcon
          rw [Bool.not_eq_false] at hcon
          exact hseen ((key_mem_iff pre x).2 ⟨t, ht, hcon⟩)
        have heq : (pre ++ x :: xs).findIdx (fun t => sameLog t x)
            = pre.length := by
          rw [findIdx_append_of_none _ pre (x :: xs) hnone,
            List.findIdx_cons, sameLog_refl]
          simp
        rw [if_pos heq, if_neg hseen, hrw, hlen, ih (pre ++ [x])]
        rw [dedupFirstBy_congr ((pre ++ [x]).map logKey)
          (logKey x :: pre.map logKey) ?_ xs]
        intro k
        simp [or_comm]

theorem dedupLogs_eq_spec (a : List LogEntry) :
    dedupLogs a = dedupFirstBy [] a := by
  have h := dedupLogsGo_spec a []
  simpa [dedupLogs] using h

theorem mergeLogs_eq_spec (s c : List LogEntry) :
    mergeLogs (some s) (some c) = specMergeLogs s c := by
  unfold mergeLogs specMergeLogs
  simp only [Option.getD_some]
  exact dedupLogs_eq_spec (s ++ c)

theorem dedupFirstBy_keys_nodup (l : List LogEntry)
    (seen : List (String × String × Int)) :
    ((dedupFirstBy seen l).map logKey).Nodup ∧
      ∀ k ∈ (dedupFirstBy seen l).map logKey, ¬ k ∈ seen := by
  induction l generalizing seen with
  | nil => exact ⟨List.nodup_nil, by intro k hk; simp [dedupFirstBy] at hk⟩
  | cons x xs ih =>
      simp only [dedupFirstBy]
      by_cases hx : logKey x ∈ seen
      · rw [if_pos hx]
        exact ih seen
      · rw [if_neg hx]
        obtain ⟨ihn, ihm⟩ := ih (logKey x :: seen)
        constructor
        · rw [List.map_cons, List.nodup_cons]
          refine ⟨?_, ihn⟩
          intro hmem
          exact ihm _ hmem (List.mem_cons_self _ _)
        · intro k hk
          rw [List.map_cons, List.mem_cons] at hk
          rcases hk with hk | hk
          · subst hk
            exact hx
          · intro hks
            exact ihm k hk (List.mem_cons_of_mem _ hks)

theorem dedupFirstBy_key_covered (l : List LogEntry)
    (seen : List (String × String × Int)) (k : String × String × Int)
    (hk : k ∈ l.map logKey) :
    k ∈ seen ∨ k ∈ (dedupFirstBy seen l).map logKey := by
  induction l generalizing seen with
  | nil => simp at hk
  | cons x xs ih =>
      simp only [dedupFirstBy]
      rw [List.map_cons, List.mem_cons] at hk
      by_cases hx : logKey x ∈ seen
      · rw [if_pos hx]
        rcases hk with hk | hk
        · left
          rw [hk]
          exact hx
        · exact ih seen hk
      · rw [if_neg hx, List.map_cons]
        rcases hk with hk | hk
        · right
          rw [hk]
          exact List.mem_cons_self _ _
        · rcases ih (logKey x :: seen) hk with h | h
          · rcases List.mem_cons.1 h with h | h
            · right
              rw [h]
              exact List.mem_cons_self _ _
            · left
              exact h
          · right
            exact List.mem_cons_of_mem _ h

theorem dedupFirstBy_of_nodup (l : List LogEntry)
    (seen : List (String × String × Int)) (hnd : (l.map logKey).Nodup)
    (hdisj : ∀ k ∈ l.map logKey, ¬ k ∈ seen) :
    dedupFirstBy seen l = l := by
  induction l generalizing seen with
  | nil => rfl
  | cons x xs ih =>
      rw [List.map_cons, List.nodup_cons] at hnd
      simp only [dedupFirstBy]
      rw [if_neg (hdisj (logKey x) (by rw [List.map_cons]; exact List.mem_cons_self _ _))]
      rw [ih (logKey x :: seen) hnd.2 ?_]
      intro k hk
      rw [List.mem_cons]
      rintro (h | h)
      · subst h
        exact hnd.1 hk
      · exact hdisj k (by rw [List.map_cons]; exact List.mem_cons_of_mem _ hk) h

theorem dedupFirstBy_all_seen (l : List LogEntry)
    (seen : List (String × String × Int))
    (h : ∀ k ∈ l.map logKey, k ∈ seen) : dedupFirstBy seen l = [] := by
  induction l generalizing seen with
  | nil => rfl
  | cons x xs ih =>
      simp only [dedupFirstBy]
      rw [if_pos (h (logKey x) (by rw [List.map_cons]; exact List.mem_cons_self _ _))]
      exact ih seen (fun k hk => h k (by rw [List.map_cons]; exact List.mem_cons_of_mem _ hk))

theorem dedupFirstBy_append_absorb (l₁ l₂ : List LogEntry)
    (seen : List (String × String × Int))
    (h : ∀ k ∈ l₂.map logKey,
      k ∈ seen ∨ k ∈ (dedupFirstBy seen l₁).map logKey) :
    dedupFirstBy seen (l₁ ++ l₂) = dedupFirstBy seen l₁ := by
  induction l₁ generalizing seen with
  | nil =>
      rw [List.nil_append]
      exact dedupFirstBy_all_seen l₂ seen (fun k hk => by
        rcases h k hk with hh | hh
        · exact hh
        · simp [dedupFirstBy] at hh)
  | cons x xs ih =>
      rw [List.cons_append]
      simp only [dedupFirstBy] at h ⊢
      by_cases hx : logKey x ∈ seen
      · rw [if_pos hx, if_pos hx]
        apply ih seen
        intro k hk
        rcases h k hk with hh | hh
        · left; exact hh
        · rw [if_pos hx] at hh
          right
          exact hh
      · rw [if_neg hx, if_neg hx]
        rw [ih (logKey x :: seen) ?_]
        intro k hk
        rcases h k hk with hh | hh
        · left
          exact List.mem_cons_of_mem _ hh
        · rw [if_neg hx, List.map_cons, List.mem_cons] at hh
          rcases hh with hh | hh
          · left
            rw [hh]
            exact List.mem_cons_self _ _
          · right
            exact hh

/-- Merging the same client log again into an already-merged log changes
nothing. -/
theorem mergeLogs_idem (s c : List LogEntry) :
    mergeLogs (some (mergeLogs (some s) (some c))) (some c)
      = mergeLogs (some s) (some c) := by
  rw [mergeLogs_eq_spec, mergeLogs_eq_spec]
  unfold specMergeLogs
  set m := dedupFirstBy [] (s ++ c) with hm
  have hnd := (dedupFirstBy_keys_nodup (s ++ c) []).1
  rw [← hm] at hnd
  have hcov : ∀ k ∈ c.map logKey, k ∈ ([] : List (String × String × Int))
      ∨ k ∈ (dedupFirstBy [] m).map logKey := by
    intro k hk
    right
    rw [dedupFirstBy_of_nodup m [] hnd (by intro k' _ hk'; simp at hk')]
    have : k ∈ (s ++ c).map logKey := by
      rw [List.map_append, List.mem_append]
      right
      exact hk
    rcases dedupFirstBy_key_covered (s ++ c) [] k this with hh | hh
    · simp at hh
    · rw [← hm] at hh
      exact hh
  rw [dedupFirstBy_append_absorb m c [] hcov]
  exact dedupFirstBy_of_nodup m [] hnd (by intro k' _ hk'; simp at hk')

theorem mergeLists_idem_opt (a c : Option (List Entity))
    (ha : (ids (a.getD [])).Nodup) (hc : (ids (c.getD [])).Nodup) :
    mergeLists (some (mergeLists a c)) c = mergeLists a c :=
  mergeLists_idem (a.getD []) (c.getD []) ha hc

theorem mergeLogs_idem_opt (s c : Option (List LogEntry)) :
    mergeLogs (some (mergeLogs s c)) c = mergeLogs s c :=
  mergeLogs_idem (s.getD []) (c.getD [])

theorem profileOr_idem (c s : Option Profile) :
    profileOr c (profileOr c s) = profileOr c s := by
  cases c <;> rfl

theorem mergeBundle_idem (cloud cd : DataBundle)
    (hcloud : BundleIdUnique cloud) (hcd : BundleIdUnique cd) :
    mergeBundle (mergeBundle cloud cd) cd = mergeBundle cloud cd := by
  unfold mergeBundle
  dsimp only
  rw [mergeLists_idem_opt cloud.decks cd.decks hcloud.1 hcd.1,
    mergeLists_idem_opt cloud.cards cd.cards hcloud.2.1 hcd.2.1,
    mergeLists_idem_opt cloud.userAchievements cd.userAchievements
      hcloud.2.2 hcd.2.2,
    mergeLogs_idem_opt cloud.studyHistory cd.studyHistory,
    profileOr_idem cd.userProfile cloud.userProfile]

theorem getUser_setUser (store : Store) (rec : UserRecord) (u : String)
    (h : getUserKey rec.username = getUserKey u) :
    getUser (setUser store rec) u = some rec := by
  unfold getUser setUser
  rw [h, JsMap.get_set_same]

/-! ### The claims -/

/-- C1: For every pair of id-unique input lists, the reconciled list
contains, for every id present in either input, exactly one entity with
that id and no other entities; in particular no entity is dropped from the
output because its `isDeleted` flag is true. -/
theorem C1_mergeLists_id_partition (s c : List Entity)
    (_hs : (ids s).Nodup) (_hc : (ids c).Nodup) :
    (ids (mergeLists (some s) (some c))).Nodup ∧
      ∀ x : Nat, x ∈ ids (mergeLists (some s) (some c)) ↔
        (x ∈ ids s ∨ x ∈ ids c) :=
  ⟨ids_mergeLists_nodup s c, fun x => ids_mergeLists_mem s c x⟩

/-- Witness for C1 at a concrete pair of lists. -/
theorem C1_mergeLists_id_partition_witness :
    (ids (mergeLists (some [sampleServerDel])
      (some [sampleClientOld, sampleClientNew2]))).Nodup :=
  (C1_mergeLists_id_partition [sampleServerDel]
    [sampleClientOld, sampleClientNew2] (by decide) (by decide)).1

/-- C2: for every id present in both id-unique inputs, the reconciled
entity's `isDeleted` equals the logical OR of the two input versions'
flags; hence a delete is never undone by a concurrent non-deleting update
to the same id. -/
theorem C2_mergeLists_isDeleted_or (s c : List Entity) (hs : (ids s).Nodup)
    (hc : (ids c).Nodup) (se ce : Entity) (hse : se ∈ s) (hce : ce ∈ c)
    (hid : se.id = ce.id) (e : Entity)
    (he : e ∈ mergeLists (some s) (some c)) (heid : e.id = ce.id) :
    e.isDeleted = (ce.isDeleted || se.isDeleted) := by
  rw [mergeLists_lookup_both s c hs hc se ce hse hce hid e he heid]
  rfl

/-- Witness for C2: a deleted server version forces the reconciled entity's
flag to true even though the client version is not deleted. -/
theorem C2_mergeLists_isDeleted_or_witness :
    ({ id := 1, updatedAt := some (.parseable 20), isDeleted := true,
       payload := 100 } : Entity).isDeleted
      = (sampleClientOld.isDeleted || sampleServerDel.isDeleted) :=
  C2_mergeLists_isDeleted_or [sampleServerDel] [sampleClientOld]
    (by decide) (by decide) sampleServerDel sampleClientOld (by decide)
    (by decide) (by decide)
    { id := 1, updatedAt := some (.parseable 20), isDeleted := true,
      payload := 100 }
    (by decide) (by decide)

/-- C3: for an id present in both id-unique inputs whose `updatedAt`
values parse to times `ct` (client) and `st` (server), the winner is the
client entity when `st ≤ ct` (ties favour the client) and the server
entity otherwise, and the stored result keeps the winner's fields verbatim
except the recomputed `isDeleted` flag. -/
theorem C3_mergeLists_winner (s c : List Entity) (hs : (ids s).Nodup)
    (hc : (ids c).Nodup) (se ce : Entity) (hse : se ∈ s) (hce : ce ∈ c)
    (hid : se.id = ce.id) (ct st : Int)
    (hct : parseTime ce.updatedAt = .num ct)
    (hst : parseTime se.updatedAt = .num st) (e : Entity)
    (he : e ∈ mergeLists (some s) (some c)) (heid : e.id = ce.id) :
    e = { (if st ≤ ct then ce else se) with
          isDeleted := ce.isDeleted || se.isDeleted } := by
  rw [mergeLists_lookup_both s c hs hc se ce hse hce hid e he heid]
  unfold combine
  rw [hct, hst]
  by_cases h : st ≤ ct
  · rw [if_pos (show jsGe (JsTime.num ct) (JsTime.num st) = true by
      simp [jsGe, h]), if_pos h]
  · rw [if_neg (show ¬ jsGe (JsTime.num ct) (JsTime.num st) = true by
      simp [jsGe, h]), if_neg h]

/-- Witness for C3: on exactly equal timestamps the client's field values
are kept. -/
theorem C3_mergeLists_winner_witness :
    ({ id := 1, updatedAt := some (.parseable 10), isDeleted := false,
       payload := 200 } : Entity)
      = { (if (10 : Int) ≤ 10 then sampleClientTie else sampleServerTie) with
          isDeleted := sampleClientTie.isDeleted || sampleServerTie.isDeleted } :=
  C3_mergeLists_winner [sampleServerTie] [sampleClientTie] (by decide)
    (by decide) sampleServerTie sampleClientTie (by decide) (by decide)
    (by decide) 10 10 (by decide) (by decide)
    { id := 1, updatedAt := some (.parseable 10), isDeleted := false,
      payload := 200 }
    (by decide) (by decide)

/-- C4 is false as stated: a server entity with an unparsable `updatedAt`
is NOT treated as epoch 0 — the JS comparison `clientTime >= cloudTime` is
false on NaN, so the server entity wins even against a client entity with
a parseable timestamp, instead of losing to it as the claim requires. -/
theorem C4_counterexample :
    mergeLists (some [sampleServerNan]) (some [sampleClientNum])
        = [sampleServerNan] ∧
      ¬ sampleClientNum ∈ mergeLists (some [sampleServerNan])
        (some [sampleClientNum]) :=
  ⟨by decide, by decide⟩

/-- C4 (amended): reconciliation never raises an error; an absent or falsy
`updatedAt` parses to epoch 0 and takes part in the ordinary comparison and
tie-break; but a truthy unparsable `updatedAt` parses to NaN, every
comparison involving NaN is false, and therefore the server entity's fields
win whenever either side's `updatedAt` is unparsable. -/
theorem C4_amended_nan_server_wins (s c : List Entity)
    (hs : (ids s).Nodup) (hc : (ids c).Nodup) (se ce : Entity)
    (hse : se ∈ s) (hce : ce ∈ c) (hid : se.id = ce.id)
    (hnan : parseTime ce.updatedAt = .nan ∨ parseTime se.updatedAt = .nan)
    (e : Entity) (he : e ∈ mergeLists (some s) (some c))
    (heid : e.id = ce.id) :
    parseTime none = JsTime.num 0 ∧
      e = { se with isDeleted := ce.isDeleted || se.isDeleted } := by
  refine ⟨rfl, ?_⟩
  have hfalse : jsGe (parseTime ce.updatedAt) (parseTime se.updatedAt)
      = false := by
    rcases hnan with h | h
    · rw [h]
      cases parseTime se.updatedAt <;> rfl
    · rw [h]
      cases parseTime ce.updatedAt <;> rfl
  rw [mergeLists_lookup_both s c hs hc se ce hse hce hid e he heid]
  unfold combine
  rw [hfalse, if_neg (by simp)]

/-- Witness for the amended C4: the unparsable server side wins against a
parseable client side. -/
theorem C4_amended_nan_server_wins_witness :
    parseTime none = JsTime.num 0 ∧
      sampleServerNan = { sampleServerNan with
        isDeleted := sampleClientNum.isDeleted || sampleServerNan.isDeleted } :=
  C4_amended_nan_server_wins [sampleServerNan] [sampleClientNum]
    (by decide) (by decide) sampleServerNan sampleClientNum (by decide)
    (by decide) (by decide) (Or.inr (by decide)) sampleServerNan
    (by decide) (by decide)

/-- C5: the merged study-history log equals the server++client
concatenation with every entry removed whose (cardId, date, rating) triple
already occurred earlier (first occurrence kept); in particular the spec's
one-repeated-plus-one-new example yields exactly two entries. -/
theorem C5_mergeLogs_dedup :
    (∀ s c : List LogEntry, mergeLogs (some s) (some c) = specMergeLogs s c)
      ∧ (mergeLogs
          (some [{ cardId := "a", date := "d1", rating := 3, payload := 0 }])
          (some [{ cardId := "a", date := "d1", rating := 3, payload := 0 },
                 { cardId := "b", date := "d2", rating := 5, payload := 0 }])
        ).length = 2 :=
  ⟨mergeLogs_eq_spec, by decide⟩

/-- C6: the resolved `userProfile` is the client profile whenever present
and the server profile otherwise, with no field-level merge and no
timestamp comparison; including the spec's two concrete examples. -/
theorem C6_profile_resolution :
    (∀ cloud client : DataBundle,
      (mergeBundle cloud client).userProfile =
        match client.userProfile with
        | some p => some p
        | none => cloud.userProfile) ∧
    ((mergeBundle { emptyBundle with userProfile := some { theme := "dark" } }
        { emptyBundle with userProfile := none }).userProfile
      = some { theme := "dark" }) ∧
    ∀ cloudProf : Option Profile,
      (mergeBundle { emptyBundle with userProfile := cloudProf }
        { emptyBundle with userProfile := some { theme := "light" } }).userProfile
      = some { theme := "light" } := by
  refine ⟨?_, rfl, fun cp => rfl⟩
  intro cloud client
  show profileOr client.userProfile cloud.userProfile = _
  cases client.userProfile <;> rfl

/-- C7: a sync-merge request for a username with no stored record fails
with HTTP 404 and returns the store unchanged — it never implicitly
creates a user record. -/
theorem C7_syncMerge_user_not_found (store : Store) (username : String)
    (clientData : Option DataBundle) (h : getUser store username = none) :
    syncMergeRoute store username clientData
      = (store, { status := 404, body := none }) := by
  unfold syncMergeRoute handleSyncMerge
  rw [h]

/-- Witness for C7 on the empty store. -/
theorem C7_syncMerge_user_not_found_witness :
    syncMergeRoute [] "alice" none = ([], { status := 404, body := none }) :=
  C7_syncMerge_user_not_found [] "alice" none rfl

/-- C8: registering a username equal, under case-insensitive comparison, to
an already-stored one returns a 409 conflict and leaves the store
unchanged; registering a fresh username with both fields present succeeds
with 201 and writes the new record. -/
theorem C8_register (store : Store) (u₀ u p : String) (rec : UserRecord)
    (hu : u.isEmpty = false) (hp : p.isEmpty = false) :
    (getUser store u₀ = some rec → jsToLower u = jsToLower u₀ →
      handleRegister store (some u) (some p) = (store, .usernameTaken)
        ∧ RegResp.usernameTaken.status = 409) ∧
    (getUser store u = none →
      handleRegister store (some u) (some p)
        = (setUser store
            { username := u, password := p, data := some emptyBundle },
           .registered)
        ∧ RegResp.registered.status = 201) := by
  have hcond : (!truthyStr (some u) || !truthyStr (some p)) = false := by
    simp [truthyStr, hu, hp]
  constructor
  · intro hrec hlow
    refine ⟨?_, rfl⟩
    have hget : getUser store u = some rec := by
      unfold getUser getUserKey
      unfold getUser getUserKey at hrec
      rw [hlow]
      exact hrec
    unfold handleRegister
    rw [hcond, if_neg (by simp)]
    simp only [Option.getD_some]
    rw [hget]
  · intro hget
    refine ⟨?_, rfl⟩
    unfold handleRegister
    rw [hcond, if_neg (by simp)]
    simp only [Option.getD_some]
    rw [hget]

/-- Witness for C8: a duplicate registration under different casing
conflicts with 409 and leaves the store unchanged. -/
theorem C8_register_witness :
    handleRegister storeAlice (some "ALICE") (some "x")
        = (storeAlice, RegResp.usernameTaken)
      ∧ RegResp.usernameTaken.status = 409 :=
  (C8_register storeAlice "Alice" "ALICE" "x" recAlice (by decide)
    (by decide)).1 (by decide) (by decide)

/-- C9: for a registered user, performing sync-merge with the same client
bundle twice in succession yields on the second call a merged bundle
identical to the first call's result. -/
theorem C9_syncMerge_idempotent (store store₁ : Store) (u : String)
    (cd m₁ : DataBundle) (user : UserRecord)
    (huser : getUser store u = some user)
    (hkey : getUserKey user.username = getUserKey u)
    (hcd : BundleIdUnique cd)
    (hcloud : BundleIdUnique (user.data.getD emptyBundle))
    (h1 : handleSyncMerge store u (some cd) = .ok (store₁, .merged m₁)) :
    (handleSyncMerge store₁ u (some cd)).map Prod.snd
      = Except.ok (SyncResp.merged m₁) := by
  have hcompute : handleSyncMerge store u (some cd)
      = .ok (setUser store
          { user with
            data := some (mergeBundle (user.data.getD emptyBundle) cd) },
        .merged (mergeBundle (user.data.getD emptyBundle) cd)) := by
    unfold handleSyncMerge
    rw [huser]
  rw [hcompute] at h1
  injection h1 with h1
  rw [Prod.mk.injEq] at h1
  obtain ⟨hst, hm⟩ := h1
  injection hm with hm
  subst hm
  subst hst
  have hget2 : getUser (setUser store
      { user with
        data := some (mergeBundle (user.data.getD emptyBundle) cd) }) u
      = some { user with
          data := some (mergeBundle (user.data.getD emptyBundle) cd) } :=
    getUser_setUser store _ u hkey
  have hidem : mergeBundle (mergeBundle (user.data.getD emptyBundle) cd) cd
      = mergeBundle (user.data.getD emptyBundle) cd :=
    mergeBundle_idem _ cd hcloud hcd
  have hcompute2 : handleSyncMerge (setUser store
      { user with
        data := some (mergeBundle (user.data.getD emptyBundle) cd) }) u
      (some cd)
      = .ok (setUser (setUser store
          { user with
            data := some (mergeBundle (user.data.getD emptyBundle) cd) })
          { user with
            data := some (mergeBundle
              (mergeBundle (user.data.getD emptyBundle) cd) cd) },
        .merged (mergeBundle
          (mergeBundle (user.data.getD emptyBundle) cd) cd)) := by
    unfold handleSyncMerge
    rw [hget2]
    rfl
  rw [hcompute2, hidem]
  rfl

/-- Witness for C9: re-merging the same (empty) client bundle returns the
same merged bundle. -/
theorem C9_syncMerge_idempotent_witness :
    (handleSyncMerge storeBob1 "bob" (some emptyBundle)).map Prod.snd
      = Except.ok (SyncResp.merged mergedBob) :=
  C9_syncMerge_idempotent storeBob storeBob1 "bob" emptyBundle mergedBob
    recBob rfl rfl
    (by unfold BundleIdUnique; exact ⟨by decide, by decide, by decide⟩)
    (by unfold BundleIdUnique; exact ⟨by decide, by decide, by decide⟩)
    (by decide)

/-- C10: for a registered user, a sync-merge payload that omits the `data`
field makes the handler throw while assembling the merged bundle; the
dispatch boundary converts the exception to an HTTP 500 and the store is
returned unchanged (the store write is never reached). -/
theorem C10_syncMerge_missing_data (store : Store) (u : String)
    (user : UserRecord) (h : getUser store u = some user) :
    handleSyncMerge store u none = Except.error SyncThrow.typeError ∧
      syncMergeRoute store u none
        = (store, { status := 500, body := none }) := by
  have hh : handleSyncMerge store u none = Except.error SyncThrow.typeError := by
    unfold handleSyncMerge
    rw [h]
  refine ⟨hh, ?_⟩
  unfold syncMergeRoute
  rw [hh]

/-- Witness for C10 on a concrete registered user. -/
theorem C10_syncMerge_missing_data_witness :
    handleSyncMerge storeBob "bob" none = Except.error SyncThrow.typeError ∧
      syncMergeRoute storeBob "bob" none
        = (storeBob, { status := 500, body := none }) :=
  C10_syncMerge_missing_data storeBob "bob" recBob rfl

end Flashcard
